import Mathlib

/-!
Shallow embedding of `src/projects/list_files_in_excel/files_2_excel.py`.

Modelling conventions: Python `str` is `String`; byte counts are `Nat`
(`os.stat_result.st_size` is a non-negative integer); Python floats are
modelled as rationals (every claim-relevant value is exactly representable
in binary floating point, so the rational model agrees with the float
behaviour at those inputs); timestamps are integers.
-/

namespace FilesToExcel

/-- Python `str.lstrip(".")`: remove every leading dot. -/
def lstripDots (s : String) : String :=
  String.mk (s.data.dropWhile (fun c => c = '.'))

/-- Python `str.startswith(".")`. -/
def startsWithDot (s : String) : Bool :=
  match s.data with
  | [] => false
  | c :: _ => c = '.'

/-- Helper for `str.rfind(".")`: index of the last `'.'`, scanning left to right. -/
def rfindDotAux : List Char → Nat → Option Nat → Option Nat
  | [], _, acc => acc
  | c :: cs, i, acc => rfindDotAux cs (i + 1) (if c = '.' then some i else acc)

/-- Python `str.rfind(".")` (as `Option` instead of `-1` for "not found"). -/
def rfindDot (s : String) : Option Nat := rfindDotAux s.data 0 none

/-- Python `pathlib.PurePath.suffix` applied to a file name: CPython returns
`name[i:]` for `i = name.rfind('.')` when `0 < i < len(name) - 1`, else `""`.
So `".gitignore"` and `"file."` have suffix `""`, `"a.b.c"` has `".c"`. -/
def suffixOf (s : String) : String :=
  match rfindDot s with
  | none => ""
  | some i => if 0 < i ∧ i < s.data.length - 1 then String.mk (s.data.drop i) else ""

/-- A `pathlib.Path` as seen by this program: the directory components
followed by the final component (the file name). For paths produced by
`root.rglob`, `dirs` starts with the root's own components. -/
structure PyPath where
  dirs : List String
  name : String
deriving DecidableEq

/-- Python `pathlib.PurePath.parts`: every component, the file name last. -/
def PyPath.parts (p : PyPath) : List String := p.dirs ++ [p.name]

/-- Python `pathlib.PurePath.suffix` of the path. -/
def PyPath.suffix (p : PyPath) : String := suffixOf p.name

/-- Python `pathlib.PurePath.as_posix()`. -/
def PyPath.asPosix (p : PyPath) : String := String.intercalate "/" p.parts

/-- The two decimal digits of Python `f"{x:0.2f}"`: the fractional cents,
zero-padded to width two. -/
def pad2 (b : Nat) : String :=
  String.mk [Nat.digitChar (b / 10 % 10), Nat.digitChar (b % 10)]

/-- Python `f"{q:0.2f}"` on a rational: round to a whole number of
hundredths and print with exactly two digits after the point. (Python
resolves exact ties to even; ties never arise in the claims, so the
rounding function used for ties is immaterial here.) -/
def formatF2 (q : ℚ) : String :=
  let c : ℤ := round (100 * q)
  if c < 0 then "-" ++ Nat.repr ((-c).toNat / 100) ++ "." ++ pad2 ((-c).toNat % 100)
  else Nat.repr (c.toNat / 100) ++ "." ++ pad2 (c.toNat % 100)

/-- The `for letter in "KMG": if size > 1024: size /= 1024; unit = f"{letter}B"`
loop of `friendly_size`, returning the final `(size, unit)` pair. -/
def sizeLoop : List String → ℚ → String → ℚ × String
  | [], size, unit => (size, unit)
  | letter :: rest, size, unit =>
    if 1024 < size then sizeLoop rest (size / 1024) (letter ++ "B")
    else sizeLoop rest size unit

/-- Function `friendly_size` from `files_2_excel.py`: convert a size in bytes to a
size with unit (as a string). -/
def friendly_size (size : ℚ) : String :=
  let su := sizeLoop ["K", "M", "G"] size "B"
  formatF2 su.1 ++ " " ++ su.2

/-- The `types` dictionary of `get_file_type`, in source order. -/
def typesTable : List (String × String) :=
  [(".html", "HTML"), (".htm", "HTML"), (".ipynb", "Jupyter"),
   (".xlsx", "Excel"), (".xls", "Excel"), (".docx", "MS Word"),
   (".doc", "MS Word"), (".txt", "Text"), (".py", "Python"),
   (".csv", "Data"), (".json", "Data"), (".yaml", "Data"),
   (".bat", "Batch"), (".cmd", "Batch"), (".sh", "Batch")]

/-- Function `get_file_type` from `files_2_excel.py`: dotfiles are named by their
name with leading dots stripped; otherwise the suffix is looked up in
`typesTable` with `types.get(path.suffix, path.suffix.lstrip("."))`. -/
def get_file_type (p : PyPath) : String :=
  if startsWithDot p.name then lstripDots p.name
  else ((typesTable.lookup p.suffix).getD (lstripDots p.suffix))

/-- Evaluation helper: once the rounded number of hundredths is known to be
the natural number `m`, `formatF2` prints `m` split at the decimal point. -/
theorem formatF2_of_round {q : ℚ} {m : ℕ} (h : round (100 * q) = (m : ℤ)) :
    formatF2 q = Nat.repr (m / 100) ++ "." ++ pad2 (m % 100) := by
  simp [formatF2, h]

/-- A filesystem entry as the scanner can observe it: its path, whether
`f.is_file()` answers true at check time, and the results of the two
`f.stat()` calls (`none` models the call raising `OSError`, e.g. because the
entry disappeared after the `is_file` check). -/
structure FSEntry where
  path : PyPath
  isFile : Bool
  stSize : Option Nat
  stMtime : Option Int
deriving DecidableEq

/-- The dictionary yielded per file by `iter_files`. Field names follow the
dict keys: `Name`, `Path` (`PathStr`), `Extension`, `Type` (`ftype`),
`Size`, `Size (b)` (`SizeB`), `Last Modif Time` (`LastModif`, kept as the
raw `st_mtime` timestamp since `datetime.fromtimestamp` is injective and
order-preserving). -/
structure FileRecord where
  Name : String
  PathStr : String
  Extension : String
  ftype : String
  Size : String
  SizeB : Nat
  LastModif : Int
deriving DecidableEq

/-- Python `a or b` on strings: `b` when `a` is empty (falsy), else `a`. -/
def pyOr (a b : String) : String := if a = "" then b else a

/-- The `rglob("*.*")` name pattern: `fnmatch` matches `*.*` exactly when
the final component contains a dot. -/
def matchesStarDotStar (s : String) : Bool := s.data.contains '.'

/-- The record built by the `yield` in `iter_files`, given the stat results. -/
def mkRecord (e : FSEntry) (size : Nat) (mtime : Int) : FileRecord :=
  { Name := e.path.name
    PathStr := e.path.asPosix
    Extension := pyOr e.path.suffix e.path.name
    ftype := get_file_type e.path
    Size := friendly_size size
    SizeB := size
    LastModif := mtime }

/-- The `any(d in f.parts for d in exclude_dir)` test: tuple membership in
Python is equality of some component, so this is an exact component match. -/
def isExcluded (exclude : List String) (p : PyPath) : Bool :=
  exclude.any (fun d => p.parts.contains d)

/-- The whole per-entry filter of `iter_files`: the entry was produced by
`root.rglob("*.*")` (name contains a dot), `f.is_file()` holds, and no
excluded name is among the path components. -/
def passes (exclude : List String) (e : FSEntry) : Bool :=
  matchesStarDotStar e.path.name && (e.isFile && !isExcluded exclude e.path)

/-- Generator `iter_files` over the entries the traversal would visit, in traversal
order. A generator that raises delivers the records yielded so far and then
the exception: `.error rs` models that, `.ok rs` a completed scan. The two
`f.stat()` calls have no exception handler in the source, so a `none` stat
aborts; an entry whose `is_file()` check already fails is skipped. -/
def iter_files (exclude : List String) : List FSEntry → Except (List FileRecord) (List FileRecord)
  | [] => .ok []
  | e :: es =>
    if passes exclude e then
      match e.stSize with
      | none => .error []
      | some size =>
        match e.stMtime with
        | none => .error []
        | some mtime =>
          match iter_files exclude es with
          | .ok rs => .ok (mkRecord e size mtime :: rs)
          | .error rs => .error (mkRecord e size mtime :: rs)
    else iter_files exclude es

/-- The records a consumer of the generator receives, whether or not the
scan later aborted. -/
def yielded : Except (List FileRecord) (List FileRecord) → List FileRecord
  | .ok rs => rs
  | .error rs => rs

/-- Lexicographic comparison of character lists, the order Python uses on
`str` and pandas on object group keys. -/
def charListLe : List Char → List Char → Bool
  | [], _ => true
  | _ :: _, [] => false
  | a :: as, b :: bs => if a < b then true else if b < a then false else charListLe as bs

/-- String comparison for the group-key sort. -/
def strLe (a b : String) : Bool := charListLe a.data b.data

/-- The distinct `Type` values, in the order `df.groupby("Type")` uses
(pandas sorts the group keys ascending). -/
def distinctTypes (records : List FileRecord) : List String :=
  List.insertionSort (fun a b => strLe a b = true) ((records.map (fun r => r.ftype)).dedup)

/-- The `Size (b)` column of the group of `t`-typed rows. -/
def typeSizes (records : List FileRecord) (t : String) : List Nat :=
  (records.filter (fun r => r.ftype = t)).map (fun r => r.SizeB)

/-- One row of `df.groupby("Type")[KEY_SIZE_B].agg([min, max, len, sum])`. -/
structure TypeAgg where
  ftype : String
  minSize : Nat
  maxSize : Nat
  count : Nat
  totalSize : Nat
deriving DecidableEq

/-- The aggregate row for one type value. -/
def typeAgg (records : List FileRecord) (t : String) : TypeAgg :=
  { ftype := t
    minSize := (typeSizes records t).min?.getD 0
    maxSize := (typeSizes records t).max?.getD 0
    count := (typeSizes records t).length
    totalSize := (typeSizes records t).sum }

/-- Table `df_ext`: one aggregate row per distinct type. -/
def typeAggs (records : List FileRecord) : List TypeAgg :=
  (distinctTypes records).map (typeAgg records)

/-- Selection `df_ext.sort_values(by=by, ascending=False).reset_index()[:10]` from
`_write_top_ten`: sort descending by the chosen metric column, keep the
first ten rows. -/
def topTen (aggs : List TypeAgg) (metric : TypeAgg → Nat) : List TypeAgg :=
  (List.insertionSort (fun a b => metric b ≤ metric a) aggs).take 10

/-- Excel `COUNTIF(ListFiles[Last Modif Time], ">=" & cutoff)`. -/
def countGE (ms : List Int) (c : Int) : Int :=
  ((ms.filter (fun m => c ≤ m)).length : Int)

/-- Excel `COUNTIF(ListFiles[Last Modif Time], "<" & cutoff)`. -/
def countLT (ms : List Int) (c : Int) : Int :=
  ((ms.filter (fun m => m < c)).length : Int)

/-- The per-row bucket formula of `_write_modif_times`:
`=COUNTIF(col, ">=" & cutoff) - SUM(previous bucket cells)`, walking the
cutoff column top to bottom with `prev` the sum of the cells above. -/
def bucketRows (ms : List Int) : List Int → Int → List Int
  | [], _ => []
  | c :: cs, prev =>
    (countGE ms c - prev) :: bucketRows ms cs (prev + (countGE ms c - prev))

/-- The cutoff in cell `B{n_row}` when the overflow formula is written: the
last threshold row's cutoff. -/
def lastCutoff (cutoffs : List Int) : Int := (cutoffs.getLast?).getD 0

/-- All seven bucket cells: the six threshold rows followed by the
`"Above 3 years"` row `=COUNTIF(col, "<" & last cutoff)`. -/
def allBucketCounts (ms : List Int) (cutoffs : List Int) : List Int :=
  bucketRows ms cutoffs 0 ++ [countLT ms (lastCutoff cutoffs)]

/-- Spec-side bucket assignment (the sentence being checked against the
formulas): the index of the earliest threshold whose cutoff is `≤` the
modification time, and the overflow index `cutoffs.length` otherwise. -/
def specAssignBucket : List Int → Int → Nat
  | [], _ => 0
  | c :: cs, m => if c ≤ m then 0 else specAssignBucket cs m + 1

/-- How many modification times the spec-side assignment puts in bucket `i`. -/
def fiberCount (ms : List Int) (cutoffs : List Int) (i : Nat) : Int :=
  ((ms.filter (fun m => specAssignBucket cutoffs m = i)).length : Int)

/-- Python `str.lower()` (ASCII suffices for the table keys). -/
def pyLower (s : String) : String := String.mk (s.data.map Char.toLower)

/-- Spec-side classification table (the claim's words): the fixed mapping
`html/htm→HTML, ipynb→Jupyter, xlsx/xls→Excel, docx/doc→MS Word, txt→Text,
py→Python, csv/json/yaml→Data, bat/cmd/sh→Batch`, with unmapped extensions
falling back to the raw extension with the leading dot stripped. -/
def claimTypeOfSuffix (s raw : String) : String :=
  if s = ".html" ∨ s = ".htm" then "HTML"
  else if s = ".ipynb" then "Jupyter"
  else if s = ".xlsx" ∨ s = ".xls" then "Excel"
  else if s = ".docx" ∨ s = ".doc" then "MS Word"
  else if s = ".txt" then "Text"
  else if s = ".py" then "Python"
  else if s = ".csv" ∨ s = ".json" ∨ s = ".yaml" then "Data"
  else if s = ".bat" ∨ s = ".cmd" ∨ s = ".sh" then "Batch"
  else lstripDots raw

/-- The classification exactly as the claim words it: dotfile rule, then
the table looked up at the lower-cased suffix. -/
def claimFileType (p : PyPath) : String :=
  if startsWithDot p.name then lstripDots p.name
  else claimTypeOfSuffix (pyLower p.suffix) p.suffix

/-- The claim amended minimally: the lookup is case-sensitive on the raw
suffix (the source never lower-cases). -/
def claimFileTypeCS (p : PyPath) : String :=
  if startsWithDot p.name then lstripDots p.name
  else claimTypeOfSuffix p.suffix p.suffix

/-- The case-sensitive dictionary lookup of `get_file_type` agrees with the
claim's mapping table read as an if-chain, for every suffix string. -/
theorem lookup_eq_claim (s : String) :
    (typesTable.lookup s).getD (lstripDots s) = claimTypeOfSuffix s s := by
  by_cases h1 : s = ".html"
  · subst h1; decide
  by_cases h2 : s = ".htm"
  · subst h2; decide
  by_cases h3 : s = ".ipynb"
  · subst h3; decide
  by_cases h4 : s = ".xlsx"
  · subst h4; decide
  by_cases h5 : s = ".xls"
  · subst h5; decide
  by_cases h6 : s = ".docx"
  · subst h6; decide
  by_cases h7 : s = ".doc"
  · subst h7; decide
  by_cases h8 : s = ".txt"
  · subst h8; decide
  by_cases h9 : s = ".py"
  · subst h9; decide
  by_cases h10 : s = ".csv"
  · subst h10; decide
  by_cases h11 : s = ".json"
  · subst h11; decide
  by_cases h12 : s = ".yaml"
  · subst h12; decide
  by_cases h13 : s = ".bat"
  · subst h13; decide
  by_cases h14 : s = ".cmd"
  · subst h14; decide
  by_cases h15 : s = ".sh"
  · subst h15; decide
  have e1 : (s == ".html") = false := by simpa using h1
  have e2 : (s == ".htm") = false := by simpa using h2
  have e3 : (s == ".ipynb") = false := by simpa using h3
  have e4 : (s == ".xlsx") = false := by simpa using h4
  have e5 : (s == ".xls") = false := by simpa using h5
  have e6 : (s == ".docx") = false := by simpa using h6
  have e7 : (s == ".doc") = false := by simpa using h7
  have e8 : (s == ".txt") = false := by simpa using h8
  have e9 : (s == ".py") = false := by simpa using h9
  have e10 : (s == ".csv") = false := by simpa using h10
  have e11 : (s == ".json") = false := by simpa using h11
  have e12 : (s == ".yaml") = false := by simpa using h12
  have e13 : (s == ".bat") = false := by simpa using h13
  have e14 : (s == ".cmd") = false := by simpa using h14
  have e15 : (s == ".sh") = false := by simpa using h15
  simp [typesTable, List.lookup, claimTypeOfSuffix, e1, e2, e3, e4, e5, e6, e7, e8, e9, e10, e11, e12, e13, e14, e15, h1, h2, h3, h4, h5, h6, h7, h8, h9, h10, h11, h12, h13, h14, h15]

/-- Concrete evaluation: the boundary value 1024 is not promoted. -/
theorem friendly_size_1024 : friendly_size 1024 = "1024.00 B" := by
  have h1 : sizeLoop ["K", "M", "G"] 1024 "B" = (1024, "B") := by
    simp only [sizeLoop]
    norm_num
  have h2 : round ((100 : ℚ) * 1024) = ((102400 : ℕ) : ℤ) := by
    norm_num [round_eq]
  simp only [friendly_size, h1]
  rw [formatF2_of_round h2]
  decide

/-- Concrete evaluation: 1536 bytes render as one and a half kilobytes. -/
theorem friendly_size_1536 : friendly_size 1536 = "1.50 KB" := by
  have h1 : sizeLoop ["K", "M", "G"] 1536 "B" = (3 / 2, "KB") := by
    simp only [sizeLoop]
    norm_num
    decide
  have h2 : round ((100 : ℚ) * (3 / 2)) = ((150 : ℕ) : ℤ) := by
    norm_num [round_eq]
  simp only [friendly_size, h1]
  rw [formatF2_of_round h2]
  decide

/-- Claim C2, counterexample: the claim reads the table at the lower-cased
suffix, but `get_file_type` looks the raw suffix up case-sensitively. On a
file named `REPORT.XLSX` the code answers `XLSX` while the claim's rule
answers `Excel`. -/
theorem C2_counterexample :
    get_file_type ⟨[], "REPORT.XLSX"⟩ = "XLSX" ∧
    claimFileType ⟨[], "REPORT.XLSX"⟩ = "Excel" ∧
    get_file_type ⟨[], "REPORT.XLSX"⟩ ≠ claimFileType ⟨[], "REPORT.XLSX"⟩ := by
  refine ⟨by decide, by decide, by decide⟩

/-- Claim C2 as amended (the lookup keys on the raw suffix, with no
lower-casing): the classification equals the claim's rule made
case-sensitive, and the three concrete examples of the claim hold. -/
theorem C2_classification :
    (∀ p : PyPath, get_file_type p = claimFileTypeCS p) ∧
    get_file_type ⟨[], ".gitignore"⟩ = "gitignore" ∧
    get_file_type ⟨[], "report.xlsx"⟩ = "Excel" ∧
    get_file_type ⟨[], "notes.xyz"⟩ = "xyz" := by
  refine ⟨fun p => ?_, by decide, by decide, by decide⟩
  unfold get_file_type claimFileTypeCS
  cases hb : startsWithDot p.name <;> simp [hb, lookup_eq_claim]

/-- The unit labels in promotion order: index `k` is the unit after `k`
divisions by 1024. -/
def unitNames : List String := ["B", "KB", "MB", "GB"]

/-- Loop characterization of `friendly_size`: the value is divided by 1024
while it strictly exceeds 1024 and at most three times, and the unit label
tracks the number of divisions. -/
theorem sizeLoop_spec (q : ℚ) : ∃ k : ℕ, k ≤ 3 ∧
    sizeLoop ["K", "M", "G"] q "B" = (q / 1024 ^ k, unitNames.getD k "B") ∧
    (k = 0 ∨ 1024 < q) ∧ (k ≤ 1 ∨ 1024 < q / 1024) ∧
    (k ≤ 2 ∨ 1024 < q / 1024 ^ 2) ∧ (k = 3 ∨ q / 1024 ^ k ≤ 1024) := by
  have e2 : q / 1024 / 1024 = q / 1024 ^ 2 := by ring
  have e3 : q / 1024 / 1024 / 1024 = q / 1024 ^ 3 := by ring
  by_cases h0 : (1024 : ℚ) < q
  · by_cases h1 : (1024 : ℚ) < q / 1024
    · by_cases h2 : (1024 : ℚ) < q / 1024 / 1024
      · refine ⟨3, by norm_num, ?_, Or.inr h0, Or.inr h1, Or.inr (e2 ▸ h2), Or.inl rfl⟩
        show sizeLoop ["K", "M", "G"] q "B" = (q / 1024 ^ 3, "GB")
        simp only [sizeLoop, if_pos h0, if_pos h1, if_pos h2]
        rw [e3]
        exact congrArg (Prod.mk _) (by decide)
      · refine ⟨2, by norm_num, ?_, Or.inr h0, Or.inr h1, Or.inl le_rfl,
          Or.inr (by rw [← e2]; exact le_of_not_lt h2)⟩
        show sizeLoop ["K", "M", "G"] q "B" = (q / 1024 ^ 2, "MB")
        simp only [sizeLoop, if_pos h0, if_pos h1, if_neg h2]
        rw [e2]
        exact congrArg (Prod.mk _) (by decide)
    · refine ⟨1, by norm_num, ?_, Or.inr h0, Or.inl le_rfl, Or.inl (by norm_num),
        Or.inr (by rw [pow_one]; exact le_of_not_lt h1)⟩
      show sizeLoop ["K", "M", "G"] q "B" = (q / 1024 ^ 1, "KB")
      simp only [sizeLoop, if_pos h0, if_neg h1]
      rw [pow_one]
      exact congrArg (Prod.mk _) (by decide)
  · refine ⟨0, by norm_num, ?_, Or.inl rfl, Or.inl (by norm_num), Or.inl (by norm_num),
      Or.inr (by rw [pow_zero, div_one]; exact le_of_not_lt h0)⟩
    show sizeLoop ["K", "M", "G"] q "B" = (q / 1024 ^ 0, "B")
    simp only [sizeLoop, if_neg h0]
    rw [pow_zero, div_one]

/-- Claim C4: the conversion divides by 1024 only while the value strictly
exceeds 1024, advancing the unit `B`, `KB`, `MB`, `GB` and never past `GB`;
in particular 1024 is not promoted (strict comparison) and 1536 becomes
`"1.50 KB"`. -/
theorem C4_friendly_size :
    friendly_size 1024 = "1024.00 B" ∧ friendly_size 1536 = "1.50 KB" ∧
    ∀ q : ℚ, ∃ k : ℕ, k ≤ 3 ∧
      sizeLoop ["K", "M", "G"] q "B" = (q / 1024 ^ k, unitNames.getD k "B") ∧
      (k = 0 ∨ 1024 < q) ∧ (k ≤ 1 ∨ 1024 < q / 1024) ∧
      (k ≤ 2 ∨ 1024 < q / 1024 ^ 2) ∧ (k = 3 ∨ q / 1024 ^ k ≤ 1024) :=
  ⟨friendly_size_1024, friendly_size_1536, sizeLoop_spec⟩

/-- Rounding a non-negative rational never produces a negative integer. -/
theorem round_nonneg {q : ℚ} (h : 0 ≤ q) : 0 ≤ round q := by
  rw [round_eq]
  refine Int.le_floor.mpr ?_
  push_cast
  linarith

/-- Claim C5: for every non-negative byte count, the output is an integer
part, a point, exactly two decimal digits, a space, and one of the four
unit labels. -/
theorem C5_format (n : ℕ) : ∃ (a b : ℕ) (u : String), b < 100 ∧ u ∈ unitNames ∧
    (pad2 b).length = 2 ∧
    friendly_size (n : ℚ) = Nat.repr a ++ "." ++ pad2 b ++ " " ++ u := by
  obtain ⟨k, hk, heq, -, -, -, -⟩ := sizeLoop_spec (n : ℚ)
  have hr : (0 : ℤ) ≤ round (100 * ((n : ℚ) / 1024 ^ k)) := round_nonneg (by positivity)
  refine ⟨(round (100 * ((n : ℚ) / 1024 ^ k))).toNat / 100,
    (round (100 * ((n : ℚ) / 1024 ^ k))).toNat % 100,
    unitNames.getD k "B", Nat.mod_lt _ (by norm_num), ?_, rfl, ?_⟩
  · interval_cases k <;> decide
  · simp only [friendly_size, heq]
    simp only [formatF2]
    rw [if_neg (not_lt.mpr hr)]

/-- Unfolding of `bucketRows` with the accumulator already summed: after a
row is written, the cells above the next row sum to that row's `COUNTIF`. -/
theorem bucketRows_cons (ms : List Int) (c : Int) (cs : List Int) (prev : Int) :
    bucketRows ms (c :: cs) prev =
      (countGE ms c - prev) :: bucketRows ms cs (countGE ms c) := by
  have h : prev + (countGE ms c - prev) = countGE ms c := by ring
  rw [bucketRows, h]

/-- The last cutoff of a list with at least two thresholds. -/
theorem lastCutoff_cons_cons (a b : Int) (l : List Int) :
    lastCutoff (a :: b :: l) = lastCutoff (b :: l) := by
  simp [lastCutoff, List.getLast?_cons_cons]

/-- The last cutoff is one of the cutoffs. -/
theorem lastCutoff_mem : ∀ (l : List Int), l ≠ [] → lastCutoff l ∈ l := by
  intro l h
  induction l with
  | nil => exact absurd rfl h
  | cons a t ih =>
    cases t with
    | nil => simp [lastCutoff]
    | cons b u =>
      rw [lastCutoff_cons_cons]
      exact List.mem_cons_of_mem a (ih (by simp))

/-- The bucket rows telescope: their sum is the `COUNTIF` at the last
cutoff minus the starting accumulator. -/
theorem sum_bucketRows : ∀ (cs : List Int) (ms : List Int) (s : Int), cs ≠ [] →
    (bucketRows ms cs s).sum = countGE ms (lastCutoff cs) - s := by
  intro cs
  induction cs with
  | nil => intro ms s h; exact absurd rfl h
  | cons c t ih =>
    intro ms s _
    cases t with
    | nil => simp [bucketRows_cons, bucketRows, lastCutoff]
    | cons b u =>
      rw [bucketRows_cons, List.sum_cons, ih ms (countGE ms c) (by simp),
        lastCutoff_cons_cons]
      ring

/-- Every modification time is counted once, on whichever side of the last
cutoff it falls. -/
theorem countGE_add_countLT (ms : List Int) (c : Int) :
    countGE ms c + countLT ms c = (ms.length : Int) := by
  induction ms with
  | nil => simp [countGE, countLT]
  | cons m t ih =>
    by_cases h : c ≤ m
    · have h2 : ¬ (m < c) := not_lt.mpr h
      simp [countGE, countLT, List.filter_cons, h, h2] at ih ⊢
      omega
    · have h2 : m < c := not_le.mp h
      simp [countGE, countLT, List.filter_cons, h, h2] at ih ⊢
      omega

/-- The length of one type group equals the count of that type among the
`Type` column values. -/
theorem length_typeSizes_eq_count (records : List FileRecord) (t : String) :
    (typeSizes records t).length = (records.map (fun r => r.ftype)).count t := by
  induction records with
  | nil => simp [typeSizes]
  | cons r rs ih =>
    by_cases h : r.ftype = t
    · simp only [typeSizes, List.filter_cons, List.map_cons, List.count_cons] at *
      simp [h, ih]
    · simp only [typeSizes, List.filter_cons, List.map_cons, List.count_cons] at *
      simp [h, ih]

/-- The per-type group sizes of `groupby("Type")` add up to the number of
records. -/
theorem sum_typeAgg_counts (records : List FileRecord) :
    ((typeAggs records).map (fun a => a.count)).sum = records.length := by
  have hperm : List.Perm (distinctTypes records)
      ((records.map (fun r => r.ftype)).dedup) :=
    List.perm_insertionSort _ _
  calc ((typeAggs records).map (fun a => a.count)).sum
      = ((distinctTypes records).map (fun t => (typeSizes records t).length)).sum := by
        simp [typeAggs, List.map_map]
        rfl
    _ = ((distinctTypes records).map
          (fun t => (records.map (fun r => r.ftype)).count t)).sum := by
        refine congrArg List.sum ?_
        exact List.map_congr_left (fun t _ => length_typeSizes_eq_count records t)
    _ = (((records.map (fun r => r.ftype)).dedup).map
          (fun t => (records.map (fun r => r.ftype)).count t)).sum :=
        (hperm.map _).sum_eq
    _ = (records.map (fun r => r.ftype)).length :=
        List.sum_map_count_dedup_eq_length _
    _ = records.length := List.length_map _ _

/-- Claim C1: for the records of one run, the seven time-bucket cells sum
to the number of records, and the per-type counts of the type aggregates
also sum to the number of records (hence all three totals agree). -/
theorem C1_conservation (records : List FileRecord) (cutoffs : List Int)
    (hne : cutoffs ≠ []) :
    (allBucketCounts (records.map (fun r => r.LastModif)) cutoffs).sum =
      (records.length : Int) ∧
    ((typeAggs records).map (fun a => a.count)).sum = records.length := by
  constructor
  · have h1 := sum_bucketRows cutoffs (records.map (fun r => r.LastModif)) 0 hne
    have h2 := countGE_add_countLT (records.map (fun r => r.LastModif))
      (lastCutoff cutoffs)
    simp only [allBucketCounts, List.sum_append, List.sum_cons, List.sum_nil, h1]
    rw [List.length_map] at h2
    omega
  · exact sum_typeAgg_counts records

/-- Splitting a `COUNTIF` at a higher cutoff: the times at least `c` are
those in the window below `cp` plus those at least `cp`. -/
theorem countGE_split : ∀ (ms : List Int) {c cp : Int}, c ≤ cp →
    countGE ms c = countGE (ms.filter (fun m => m < cp)) c + countGE ms cp := by
  intro ms c cp hle
  induction ms with
  | nil => simp [countGE]
  | cons m t ih =>
    by_cases h1 : cp ≤ m
    · have h2 : c ≤ m := le_trans hle h1
      have h3 : ¬ (m < cp) := not_lt.mpr h1
      simp [countGE, List.filter_cons, h1, h2, h3] at ih ⊢
      omega
    · have h3 : m < cp := not_le.mp h1
      by_cases h2 : c ≤ m
      · simp [countGE, List.filter_cons, h1, h2, h3] at ih ⊢
        omega
      · simp [countGE, List.filter_cons, h1, h2, h3] at ih ⊢
        omega

/-- Counting below a cutoff is unaffected by dropping the times at or
above a higher cutoff. -/
theorem countLT_filter : ∀ (ms : List Int) {c cp : Int}, c ≤ cp →
    countLT ms c = countLT (ms.filter (fun m => m < cp)) c := by
  intro ms c cp hle
  induction ms with
  | nil => simp [countLT]
  | cons m t ih =>
    by_cases h1 : m < c
    · have h2 : m < cp := lt_of_lt_of_le h1 hle
      simp [countLT, List.filter_cons, h1, h2] at ih ⊢
      omega
    · by_cases h2 : m < cp
      · simp [countLT, List.filter_cons, h1, h2] at ih ⊢
        omega
      · simp [countLT, List.filter_cons, h1, h2] at ih ⊢
        omega

/-- Writing the remaining rows against the whole column with the
accumulator already at the previous `COUNTIF` is the same as writing them
against only the rows strictly younger than the previous cutoff. -/
theorem bucketRows_shift : ∀ (cs : List Int) (ms : List Int) (c1 s : Int),
    (∀ c ∈ cs, c < c1) →
    bucketRows ms cs (countGE ms c1 + s) =
      bucketRows (ms.filter (fun m => m < c1)) cs s := by
  intro cs
  induction cs with
  | nil => intro ms c1 s _; simp [bucketRows]
  | cons c t ih =>
    intro ms c1 s h
    have hc : c < c1 := h c (List.mem_cons_self c t)
    have hsplit := countGE_split ms (le_of_lt hc)
    rw [bucketRows_cons, bucketRows_cons]
    have htail : bucketRows ms t (countGE ms c) =
        bucketRows (ms.filter (fun m => m < c1)) t
          (countGE (ms.filter (fun m => m < c1)) c) := by
      have hc' : countGE ms c =
          countGE ms c1 + countGE (ms.filter (fun m => m < c1)) c := by
        rw [hsplit]; ring
      rw [hc']
      exact ih ms c1 _ (fun x hx => h x (List.mem_cons_of_mem c hx))
    rw [htail]
    have hhead : countGE ms c - (countGE ms c1 + s) =
        countGE (ms.filter (fun m => m < c1)) c - s := by
      rw [hsplit]; ring
    rw [hhead]

/-- The spec assignment always lands in one of the `length + 1` buckets. -/
theorem specAssignBucket_le : ∀ (cutoffs : List Int) (m : Int),
    specAssignBucket cutoffs m ≤ cutoffs.length := by
  intro cutoffs m
  induction cutoffs with
  | nil => simp [specAssignBucket]
  | cons c t ih =>
    by_cases h : c ≤ m
    · simp [specAssignBucket, h]
    · simp only [specAssignBucket, if_neg h, List.length_cons]
      omega

/-- Bucket zero of the assignment is exactly the first `COUNTIF`. -/
theorem fiberCount_zero (ms : List Int) (c : Int) (cs : List Int) :
    fiberCount ms (c :: cs) 0 = countGE ms c := by
  unfold fiberCount countGE
  congr 1
  refine congrArg List.length (List.filter_congr ?_)
  intro m _
  by_cases h : c ≤ m <;> simp [specAssignBucket, h]

/-- Later buckets only see the times strictly below the first cutoff. -/
theorem fiberCount_succ (ms : List Int) (c : Int) (cs : List Int) (i : Nat) :
    fiberCount ms (c :: cs) (i + 1) =
      fiberCount (ms.filter (fun m => m < c)) cs i := by
  unfold fiberCount
  congr 1
  rw [List.filter_filter]
  refine congrArg List.length (List.filter_congr ?_)
  intro m _
  by_cases h : c ≤ m
  · have h2 : ¬ (m < c) := not_lt.mpr h
    simp [specAssignBucket, h, h2]
  · have h2 : m < c := not_le.mp h
    simp [specAssignBucket, h, h2]

/-- With a single threshold, the overflow fiber is the below-cutoff count. -/
theorem fiberCount_last (ms : List Int) (c : Int) :
    fiberCount ms [c] 1 = countLT ms c := by
  unfold fiberCount countLT
  congr 1
  refine congrArg List.length (List.filter_congr ?_)
  intro m _
  by_cases h : c ≤ m
  · have h2 : ¬ (m < c) := not_lt.mpr h
    simp [specAssignBucket, h, h2]
  · have h2 : m < c := not_le.mp h
    simp [specAssignBucket, h, h2]

/-- Claim C6: with strictly descending cutoffs (which the six source
deltas produce below any `now`), the seven cells computed by the worksheet
formulas are exactly the sizes of the fibers of the spec's assignment —
each time goes to the earliest threshold whose cutoff is at most it, else
to the overflow bucket — and every time receives a bucket index, so the
buckets partition the records with no overlap and no omission. -/
theorem C6_buckets : ∀ (cutoffs : List Int) (ms : List Int),
    List.Sorted (· > ·) cutoffs → cutoffs ≠ [] →
    (allBucketCounts ms cutoffs =
      (List.range (cutoffs.length + 1)).map (fiberCount ms cutoffs) ∧
    ∀ m : Int, specAssignBucket cutoffs m ≤ cutoffs.length) := by
  intro cutoffs
  induction cutoffs with
  | nil => intro ms _ h; exact absurd rfl h
  | cons c t ih =>
    intro ms hs _
    refine ⟨?_, fun m => specAssignBucket_le _ m⟩
    cases t with
    | nil =>
      simp [allBucketCounts, bucketRows_cons, bucketRows, lastCutoff,
        List.range_succ, fiberCount_zero, fiberCount_last]
    | cons c2 u =>
      have hlt : ∀ x ∈ (c2 :: u), x < c := (List.sorted_cons.mp hs).1
      have hs2 : List.Sorted (· > ·) (c2 :: u) := (List.sorted_cons.mp hs).2
      rw [allBucketCounts, bucketRows_cons, sub_zero]
      have hshift : bucketRows ms (c2 :: u) (countGE ms c) =
          bucketRows (ms.filter (fun m => m < c)) (c2 :: u) 0 := by
        have h0 := bucketRows_shift (c2 :: u) ms c 0 hlt
        rw [add_zero] at h0
        exact h0
      rw [hshift, lastCutoff_cons_cons]
      have hlastmem : lastCutoff (c2 :: u) ∈ (c2 :: u) := lastCutoff_mem _ (by simp)
      have hlastle : lastCutoff (c2 :: u) ≤ c := le_of_lt (hlt _ hlastmem)
      rw [countLT_filter ms hlastle]
      obtain ⟨ihe, -⟩ := ih (ms.filter (fun m => m < c)) hs2 (by simp)
      rw [allBucketCounts] at ihe
      rw [show ((c :: c2 :: u).length + 1) = (((c2 :: u).length + 1) + 1) from rfl,
        List.range_succ_eq_map, List.map_cons, List.map_map, fiberCount_zero]
      rw [show ((countGE ms c :: bucketRows (ms.filter (fun m => m < c)) (c2 :: u) 0)
            ++ [countLT (ms.filter (fun m => m < c)) (lastCutoff (c2 :: u))]) =
          (countGE ms c :: (bucketRows (ms.filter (fun m => m < c)) (c2 :: u) 0
            ++ [countLT (ms.filter (fun m => m < c)) (lastCutoff (c2 :: u))])) from rfl]
      rw [ihe]
      refine congrArg (List.cons (countGE ms c)) ?_
      refine List.map_congr_left ?_
      intro i _
      simp only [Function.comp_apply]
      exact (fiberCount_succ ms c (c2 :: u) i).symm

/-- Every record delivered by the generator comes from some entry that
passed the filter and whose two stats succeeded. -/
theorem yielded_shape : ∀ (exclude : List String) (fs : List FSEntry)
    (r : FileRecord), r ∈ yielded (iter_files exclude fs) →
    ∃ e, e ∈ fs ∧ passes exclude e = true ∧
      ∃ sz mt, e.stSize = some sz ∧ e.stMtime = some mt ∧ r = mkRecord e sz mt := by
  intro exclude fs
  induction fs with
  | nil => intro r hr; simp [iter_files, yielded] at hr
  | cons e es ih =>
    intro r hr
    by_cases hp : passes exclude e = true
    · simp only [iter_files, if_pos hp] at hr
      cases hsz : e.stSize with
      | none => rw [hsz] at hr; simp [yielded] at hr
      | some sz =>
        rw [hsz] at hr
        cases hmt : e.stMtime with
        | none => simp only [hmt] at hr; simp [yielded] at hr
        | some mt =>
          simp only [hmt] at hr
          cases hit : iter_files exclude es with
          | ok rs =>
            rw [hit] at hr
            simp only [yielded, List.mem_cons] at hr
            rcases hr with h | h
            · exact ⟨e, List.mem_cons_self _ _, hp, sz, mt, hsz, hmt, h⟩
            · obtain ⟨ep, hep, hpp, szp, mtp, h1, h2, h3⟩ :=
                ih r (by rw [hit]; exact h)
              exact ⟨ep, List.mem_cons_of_mem _ hep, hpp, szp, mtp, h1, h2, h3⟩
          | error rs =>
            rw [hit] at hr
            simp only [yielded, List.mem_cons] at hr
            rcases hr with h | h
            · exact ⟨e, List.mem_cons_self _ _, hp, sz, mt, hsz, hmt, h⟩
            · obtain ⟨ep, hep, hpp, szp, mtp, h1, h2, h3⟩ :=
                ih r (by rw [hit]; exact h)
              exact ⟨ep, List.mem_cons_of_mem _ hep, hpp, szp, mtp, h1, h2, h3⟩
    · simp only [iter_files, if_neg hp] at hr
      obtain ⟨ep, hep, rest⟩ := ih r hr
      exact ⟨ep, List.mem_cons_of_mem _ hep, rest⟩

/-- Claim C3 as amended: the scanner yields exactly the regular files whose
name contains a dot (the `rglob("*.*")` pattern) and whose path has no
excluded component, provided each selected entry's metadata reads succeed.
Regular files whose names contain no dot are never enumerated. -/
theorem C3_scan (exclude : List String) (fs : List FSEntry)
    (hstat : ∀ e ∈ fs, passes exclude e = true →
      e.stSize.isSome ∧ e.stMtime.isSome) :
    iter_files exclude fs = Except.ok ((fs.filter (passes exclude)).map
      (fun e => mkRecord e (e.stSize.getD 0) (e.stMtime.getD 0))) := by
  induction fs with
  | nil => simp [iter_files]
  | cons e es ih =>
    have ihe := ih (fun x hx hpx => hstat x (List.mem_cons_of_mem _ hx) hpx)
    by_cases hp : passes exclude e = true
    · obtain ⟨h1, h2⟩ := hstat e (List.mem_cons_self _ _) hp
      obtain ⟨sz, hsz⟩ := Option.isSome_iff_exists.mp h1
      obtain ⟨mt, hmt⟩ := Option.isSome_iff_exists.mp h2
      simp only [iter_files, if_pos hp, hsz, hmt, ihe]
      simp [List.filter_cons, hp, hsz, hmt]
    · simp only [iter_files, if_neg hp, ihe]
      simp [List.filter_cons, hp]

/-- An entry the claim says must be enumerated: a regular file with no
excluded component anywhere, but with no dot in its name. -/
def mfEntry : FSEntry := ⟨⟨["root"], "Makefile"⟩, true, some 5, some 0⟩

/-- Claim C3, counterexample: `rglob("*.*")` never enumerates a regular
file whose name has no dot, so scanning a directory holding only
`Makefile`, with nothing excluded, yields no record at all. -/
theorem C3_counterexample :
    mfEntry.isFile = true ∧ isExcluded [] mfEntry.path = false ∧
    iter_files [] [mfEntry] = Except.ok [] := by
  refine ⟨rfl, rfl, ?_⟩
  have hp : passes [] mfEntry = false := by decide
  simp [iter_files, hp]

/-- First scanned entry: readable throughout. -/
def okEntryA : FSEntry := ⟨⟨["r"], "a.txt"⟩, true, some 1, some 10⟩

/-- Second scanned entry: passed `is_file` but vanished before `stat`. -/
def goneEntry : FSEntry := ⟨⟨["r"], "b.txt"⟩, true, none, none⟩

/-- Third scanned entry: readable throughout, but never reached. -/
def okEntryC : FSEntry := ⟨⟨["r"], "c.txt"⟩, true, some 2, some 20⟩

/-- Claim C7, counterexample: `f.stat()` has no exception handler, so an
entry that becomes unreadable between the `is_file` check and the stat
aborts the whole scan: with three files whose middle entry fails at stat
time, the generator raises after the first record and the third file is
never yielded. -/
theorem C7_counterexample :
    iter_files [] [okEntryA, goneEntry, okEntryC] =
      Except.error [mkRecord okEntryA 1 10] ∧
    (yielded (iter_files [] [okEntryA, goneEntry, okEntryC])).map
      (fun r => r.Name) = ["a.txt"] := by
  exact ⟨rfl, rfl⟩

/-- Claim C7 as amended: only a disappearance detected by the `is_file`
check is skipped, with the scan continuing unchanged over the remaining
entries; a stat failure after that check aborts the scan. -/
theorem C7_skip (exclude : List String) (e : FSEntry) (es : List FSEntry)
    (h : e.isFile = false) :
    iter_files exclude (e :: es) = iter_files exclude es := by
  have hp : passes exclude e = false := by simp [passes, h]
  simp [iter_files, hp]

/-- Claim C9: the exclusion test covers every path component including the
file's own name and matches by exact equality — a yielded record is never
named exactly like an excluded string, and an entry none of whose
components equals an excluded string (a mere substring does not count)
passes the exclusion test and is yielded when the other conditions hold. -/
theorem C9_exact_component (exclude : List String) (fs : List FSEntry) :
    (∀ d ∈ exclude, ∀ r ∈ yielded (iter_files exclude fs), r.Name ≠ d) ∧
    (∀ e : FSEntry, ∀ sz mt, e.stSize = some sz → e.stMtime = some mt →
      e.isFile = true → matchesStarDotStar e.path.name = true →
      (∀ d ∈ exclude, d ∉ e.path.parts) →
      iter_files exclude [e] = Except.ok [mkRecord e sz mt]) := by
  constructor
  · intro d hd r hr
    obtain ⟨e, _, hp, sz, mt, _, _, hre⟩ := yielded_shape exclude fs r hr
    subst hre
    have hex : isExcluded exclude e.path = false := by
      simp only [passes, Bool.and_eq_true, Bool.not_eq_true'] at hp
      exact hp.2.2
    have hdnot : d ∉ e.path.parts := by
      simp only [isExcluded, List.any_eq_false] at hex
      intro hmem
      exact (hex d hd) (by simpa using hmem)
    have hnm : e.path.name ∈ e.path.parts := by simp [PyPath.parts]
    intro hc
    simp only [mkRecord] at hc
    exact hdnot (hc ▸ hnm)
  · intro e sz mt hsz hmt hf hm hnotin
    have hex : isExcluded exclude e.path = false := by
      simp only [isExcluded, List.any_eq_false]
      intro d hd
      simpa using hnotin d hd
    have hp : passes exclude e = true := by simp [passes, hm, hf, hex]
    simp [iter_files, hp, hsz, hmt]

/-- Claim C10: each yielded record's `Extension` is the path's suffix when
that suffix is non-empty and the entire file name otherwise; in particular
the dotfile `.gitignore` has empty pathlib suffix, so its record's
`Extension` is `".gitignore"`, not the empty string. -/
theorem C10_extension (exclude : List String) (fs : List FSEntry) :
    (∀ r ∈ yielded (iter_files exclude fs),
      r.Extension = if suffixOf r.Name = "" then r.Name else suffixOf r.Name) ∧
    suffixOf ".gitignore" = "" ∧
    (mkRecord ⟨⟨["root"], ".gitignore"⟩, true, some 1, some 2⟩ 1 2).Extension =
      ".gitignore" := by
  refine ⟨?_, by decide, by decide⟩
  intro r hr
  obtain ⟨e, _, _, sz, mt, _, _, hre⟩ := yielded_shape exclude fs r hr
  subst hre
  simp [mkRecord, pyOr, PyPath.suffix]

/-- Claim C8: sorting the per-type aggregates descending by the chosen
metric and keeping the first ten rows yields `min 10 n` fully-populated
rows in descending metric order, all drawn from the aggregates, every
dropped row's metric at most every kept row's; with at most ten aggregates
the selection is a permutation of all of them (no padding). -/
theorem C8_top_ten (aggs : List TypeAgg) (metric : TypeAgg → Nat) :
    (topTen aggs metric).length = min 10 aggs.length ∧
    List.Pairwise (fun a b => metric b ≤ metric a) (topTen aggs metric) ∧
    List.Subperm (topTen aggs metric) aggs ∧
    (∀ a ∈ topTen aggs metric,
      ∀ b ∈ (List.insertionSort (fun a b => metric b ≤ metric a) aggs).drop 10,
        metric b ≤ metric a) ∧
    (aggs.length ≤ 10 → List.Perm (topTen aggs metric) aggs) := by
  haveI : IsTotal TypeAgg (fun a b => metric b ≤ metric a) :=
    ⟨fun a b => le_total (metric b) (metric a)⟩
  haveI : IsTrans TypeAgg (fun a b => metric b ≤ metric a) :=
    ⟨fun _ _ _ h1 h2 => le_trans h2 h1⟩
  have hsorted : List.Sorted (fun a b => metric b ≤ metric a)
      (List.insertionSort (fun a b => metric b ≤ metric a) aggs) :=
    List.sorted_insertionSort _ _
  have hperm : List.Perm
      (List.insertionSort (fun a b => metric b ≤ metric a) aggs) aggs :=
    List.perm_insertionSort _ _
  refine ⟨?_, ?_, ?_, ?_, ?_⟩
  · simp [topTen, List.length_take, List.length_insertionSort]
  · exact List.Pairwise.sublist (List.take_sublist _ _) hsorted
  · exact ((List.take_sublist _ _).subperm).trans hperm.subperm
  · intro a ha b hb
    have hsp : List.Pairwise (fun a b => metric b ≤ metric a)
        ((List.insertionSort (fun a b => metric b ≤ metric a) aggs).take 10 ++
          (List.insertionSort (fun a b => metric b ≤ metric a) aggs).drop 10) := by
      rw [List.take_append_drop]
      exact hsorted
    exact (List.pairwise_append.mp hsp).2.2 a ha b hb
  · intro hle
    have hlen : (List.insertionSort (fun a b => metric b ≤ metric a) aggs).length ≤ 10 := by
      rw [List.length_insertionSort]
      exact hle
    unfold topTen
    rw [List.take_of_length_le hlen]
    exact hperm

/-- Two concrete aggregate rows for instantiating the top-ten theorem. -/
def wAggA : TypeAgg := ⟨"Text", 1, 5, 2, 6⟩

/-- A second concrete aggregate row. -/
def wAggB : TypeAgg := ⟨"Python", 2, 9, 3, 11⟩

/-- Witness for claim C8 at two aggregates and the total-size metric. -/
theorem C8_witness :
    (topTen [wAggA, wAggB] (fun a => a.totalSize)).length =
      min 10 ([wAggA, wAggB] : List TypeAgg).length ∧
    List.Perm (topTen [wAggA, wAggB] (fun a => a.totalSize)) [wAggA, wAggB] :=
  ⟨(C8_top_ten [wAggA, wAggB] (fun a => a.totalSize)).1,
   (C8_top_ten [wAggA, wAggB] (fun a => a.totalSize)).2.2.2.2 (by decide)⟩

/-- A concrete record of type `Text`. -/
def wRec1 : FileRecord := ⟨"a.txt", "r/a.txt", ".txt", "Text", "3.00 B", 3, 12⟩

/-- A concrete record of type `Python`. -/
def wRec2 : FileRecord := ⟨"b.py", "r/b.py", ".py", "Python", "4.00 B", 4, 5⟩

/-- Witness for claim C1 at two records and one cutoff. -/
theorem C1_witness :
    (allBucketCounts ([wRec1, wRec2].map (fun r => r.LastModif)) [10]).sum =
      (([wRec1, wRec2] : List FileRecord).length : Int) ∧
    ((typeAggs [wRec1, wRec2]).map (fun a => a.count)).sum =
      ([wRec1, wRec2] : List FileRecord).length :=
  C1_conservation [wRec1, wRec2] [10] (by decide)

/-- Six strictly descending concrete cutoffs, as the six deltas produce. -/
def wCutoffs : List Int := [60, 50, 40, 30, 20, 10]

/-- Concrete modification times spread over the buckets. -/
def wTimes : List Int := [65, 45, 5, 33]

/-- Witness for claim C6 at concrete descending cutoffs. -/
theorem C6_witness :
    allBucketCounts wTimes wCutoffs =
      (List.range (wCutoffs.length + 1)).map (fiberCount wTimes wCutoffs) :=
  (C6_buckets wCutoffs wTimes (by decide) (by decide)).1

/-- A regular dotted-name file that the scanner reports. -/
def wDotted : FSEntry := ⟨⟨["root"], "notes.txt"⟩, true, some 7, some 3⟩

/-- Witness for claim C3 (amended) on a two-entry filesystem. -/
theorem C3_witness :
    iter_files [] [wDotted, mfEntry] =
      Except.ok ((([wDotted, mfEntry] : List FSEntry).filter (passes [])).map
        (fun e => mkRecord e (e.stSize.getD 0) (e.stMtime.getD 0))) :=
  C3_scan [] [wDotted, mfEntry] (by decide)

/-- An entry whose `is_file` check already fails (vanished early). -/
def wGone : FSEntry := ⟨⟨["r"], "gone.txt"⟩, false, none, none⟩

/-- Witness for claim C7 (amended): the early-vanished entry is skipped. -/
theorem C7_witness :
    iter_files [] [wGone, okEntryA] = iter_files [] [okEntryA] :=
  C7_skip [] wGone [okEntryA] rfl

/-- A regular file that no exclusion matches. -/
def wReadme : FSEntry := ⟨⟨["r"], "readme.txt"⟩, true, some 1, some 1⟩

/-- An entry whose directory component contains an excluded string only as
a proper substring. -/
def wSubEntry : FSEntry := ⟨⟨["github"], "a.txt"⟩, true, some 4, some 7⟩

/-- Witness for claim C9: a yielded record is not named like the excluded
string, and a substring-only component does not exclude. -/
theorem C9_witness :
    (mkRecord wReadme 1 1).Name ≠ "docs" ∧
    iter_files ["git"] [wSubEntry] = Except.ok [mkRecord wSubEntry 4 7] := by
  constructor
  · exact (C9_exact_component ["docs"] [wReadme]).1 "docs" (by decide)
      (mkRecord wReadme 1 1) (List.mem_singleton_self _)
  · exact (C9_exact_component ["git"] []).2 wSubEntry 4 7 rfl rfl rfl
      (by decide) (by decide)

/-- The dotfile entry of the claim's example. -/
def wGitEntry : FSEntry := ⟨⟨["root"], ".gitignore"⟩, true, some 1, some 2⟩

/-- Witness for claim C10 at the dotfile `.gitignore`. -/
theorem C10_witness :
    (mkRecord wGitEntry 1 2).Extension =
      if suffixOf (mkRecord wGitEntry 1 2).Name = ""
      then (mkRecord wGitEntry 1 2).Name
      else suffixOf (mkRecord wGitEntry 1 2).Name :=
  (C10_extension [] [wGitEntry]).1 (mkRecord wGitEntry 1 2)
    (List.mem_singleton_self _)

end FilesToExcel
